import Mathlib

/-!
Shallow embedding of the nvimpam card-grammar core: the comment-filtering
line cursor (`NoCommentIter` in `src/nocommentiter.rs`), the conditional
evaluator (`src/card/line.rs`), the GES skipper `skip_ges` and the
card-grammar walker `skip_card`.

Modelling conventions:
- Line text is a `List Char` (the source uses byte slices; all inputs of
  interest are ASCII, where bytes and chars coincide).
- The iterator state of `NoCommentIter` is the list of lines not yet
  consumed; every cursor operation additionally returns the remaining list.
- The Rust early-return macros (`next_or_return_previdx!` and friends) are
  modelled by the explicit sum type `Step` (`done` = early return of a
  partial `SkipResult`, `cont` = the advanced cursor state).
- `skip_card`'s `card.lines.iter().next().unwrap_or_else(|| unreachable!())`
  panic on an empty row list is modelled by returning `none`.
-/

set_option synthInstance.maxSize 512

namespace Nvimpam

/-- Keywords recognized on lines; `Comment` is the reserved keyword for
comment lines (starting with `$` or `#`), filtered out by the cursor. -/
inductive Keyword where
  | Node
  | Shell
  | Nsmas
  | Mass
  | Comment
deriving DecidableEq, Repr

/-- Line text; the source holds byte slices, modelled as char lists. -/
abbrev Text := List Char

/-- A line of the buffer: its number, its text being a view into the buffer,
and its keyword, if any (`lines::ParsedLine`). -/
structure ParsedLine where
  number : Int
  text : Text
  keyword : Option Keyword
deriving DecidableEq, Repr

/-- The result of a skip operation (`skipresult::SkipResult`): the number of
the last line consumed, and the first unconsumed line, if any. -/
structure SkipResult where
  skip_end : Int
  nextline : Option ParsedLine
deriving DecidableEq, Repr

/-- The result of evaluating a `Conditional` (`card::line::CondResult`,
reconstructed from its uses in `nocommentiter.rs`): a boolean, or an
optional count. -/
inductive CondResult where
  | Bool (b : Bool)
  | Number (n : Option Int)
deriving DecidableEq, Repr

/-- A conditional on a line (`card::line::Conditional`): `RelChar i c` holds
when the character at 0-based index `i` of the line is `c`. -/
inductive Conditional where
  | RelChar (idx : Nat) (c : Char)
deriving DecidableEq, Repr

/-- The evaluation of a `Conditional` from `src/card/line.rs`: the source
compares `line.get(idx..idx+1)` with the one-character string of `c`, which
on ASCII text is the char-at-index comparison; an out-of-range index makes
the slice `None` and the comparison false. -/
def Conditional.evaluate : Conditional → Text → Bool
  | .RelChar idx c, line => decide ((line.drop idx).take 1 = [c])

/-- Modelled from the spec: the `CondResult`-returning form of
`Conditional::evaluate` used by the walker is not under `src/`; per the
spec a `Provides` row "records a named boolean/count result", and the only
documented conditional `RelChar` yields a boolean. -/
def Conditional.evaluateC (c : Conditional) (line : Text) : CondResult :=
  CondResult.Bool (c.evaluate line)

/-- The General Entity Selection variants (`card::ges::GesType`); only
`GesNode` is exercised by the spec. -/
inductive GesType where
  | GesNode
  | GesEle
deriving DecidableEq, Repr

/-- First whitespace-delimited token of a line. -/
def firstToken (t : Text) : Text :=
  (t.dropWhile (fun ch => ch == ' ')).takeWhile (fun ch => ch != ' ')

/-- Modelled from the spec: `card/ges.rs` is not under `src/`. The spec says
a `GesType` "exposes two predicates over raw line text: `contains` (line is
part of the selection body) and `ended_by` (line terminates the selection)";
the membership tokens are taken from the spec's GES scenario lines. -/
def GesType.contains (_g : GesType) (t : Text) : Bool :=
  (["PART", "OGRP", "MOD", "NOD", "END_MOD", "DELELE", "DELNOD", "DELGRP",
    "DELGRP>NOD", "ELE", "GRP", "DELPART"].map String.toList).contains
    (firstToken t)

/-- Modelled from the spec: the explicit GES terminator is a line whose
(sole leading) token is exactly `END`; `END_MOD` does not terminate, and an
`END` that is not the first token (as on a keyword line) does not either. -/
def GesType.ended_by (_g : GesType) (t : Text) : Bool :=
  firstToken t == "END".toList

/-- A row of a card definition (`card::line::Line`, called `CardLine` in
`nocommentiter.rs`); cell layouts are abstracted to an identifier, since
the concrete cell tables live in the external registry. -/
inductive CardLine where
  | Cells (layout : Nat)
  | Ges (g : GesType)
  | Provides (layout : Nat) (c : Conditional)
  | Optional (layout : Nat) (idx : Nat)
  | Repeat (layout : Nat) (idx : Nat)
  | Block (layout : Nat) (s : Text)
  | OptionalBlock (s1 : Text) (s2 : Text)
deriving DecidableEq, Repr

/-- A card definition (`card::Card`): a keyword, the fold-ownership flag and
the ordered row list. -/
structure Card where
  keyword : Keyword
  ownfold : Bool
  lines : List CardLine
deriving DecidableEq, Repr

/-- A highlight record: the line number paired with the data of one
`add_line_highlights` call. -/
abbrev Highlights := List (Int × Option (Nat × Text))

/-- Modelled from the spec: the highlight spans of a row applied to a line's
text ("given a line's raw text and a row's cell layout, produce zero or
more highlight spans", an external rule); rows carrying a cell layout
produce the layout applied to the text, the others nothing. -/
def CardLine.highlights : CardLine → Text → Option (Nat × Text)
  | .Cells l, t => some (l, t)
  | .Provides l _, t => some (l, t)
  | .Optional l _, t => some (l, t)
  | .Repeat l _, t => some (l, t)
  | .Block l _, t => some (l, t)
  | .OptionalBlock _ _, _ => none
  | .Ges _, _ => none

namespace NoCommentIter

/-- The `Iterator::next` of `NoCommentIter`: skip lines whose keyword is
`Comment`, yield the first other line together with the rest of the
underlying sequence, or `none` when the underlying sequence is exhausted. -/
def next : List ParsedLine → Option (ParsedLine × List ParsedLine)
  | [] => none
  | l :: ls => if l.keyword = some Keyword.Comment then next ls else some (l, ls)

/-- Consuming a line through `next` strictly shrinks the underlying list
(stated as a definition because later cursor loops recurse through `next`
and use this fact for termination). -/
def next_shrinks : ∀ {ls : List ParsedLine} {p : ParsedLine × List ParsedLine},
    next ls = some p → p.2.length < ls.length := by
  intro ls
  induction ls with
  | nil => intro p h; simp [next] at h
  | cons l ls ih =>
    intro p h
    simp only [next] at h
    split at h
    · exact Nat.lt_trans (ih h) (Nat.lt_succ_self _)
    · cases h; simp

/-- The body of the `while ges.contains` loop of `skip_ges`, together with
the `if ges.ended_by` consumption of the breaking line and the final
`SkipResult`; `previdx` and `nl` are the loop variables, `rest` the cursor. -/
def gesLoop (g : GesType) (previdx : Int) (nl : ParsedLine)
    (rest : List ParsedLine) : SkipResult × List ParsedLine :=
  if g.contains nl.text then
    match h : next rest with
    | none => ({ skip_end := nl.number, nextline := none }, [])
    | some (nl', rest') => gesLoop g nl.number nl' rest'
  else if g.ended_by nl.text then
    match next rest with
    | none => ({ skip_end := nl.number, nextline := none }, [])
    | some (nl', rest') => ({ skip_end := nl.number, nextline := some nl' }, rest')
  else ({ skip_end := previdx, nextline := some nl }, rest)
termination_by rest.length
decreasing_by exact next_shrinks h

/-- `NoCommentIter::skip_ges`: classify `skipline` against the GES
predicates; `none` in the first component means "not applicable" (the
cursor is left untouched), otherwise the `SkipResult` is returned together
with the remaining cursor. -/
def skip_ges (g : GesType) (skipline : ParsedLine) (rest : List ParsedLine) :
    Option SkipResult × List ParsedLine :=
  let contained := g.contains skipline.text
  let ends := g.ended_by skipline.text
  if ends then
    match next rest with
    | none => (some { skip_end := skipline.number, nextline := none }, [])
    | some (nl, rest') =>
      (some { skip_end := skipline.number, nextline := some nl }, rest')
  else if !ends && !contained then (none, rest)
  else
    match next rest with
    | none => (some { skip_end := skipline.number, nextline := none }, [])
    | some (nl, rest') =>
      let p := gesLoop g skipline.number nl rest'
      (some p.1, p.2)

/-- One cursor advancement inside `skip_card` (the `advance!` macro):
either the result of an early return at end of input, or the new
`(previdx, nextline, rest)` state. -/
inductive Step where
  | done (r : SkipResult)
  | cont (previdx : Int) (nl : ParsedLine) (rest : List ParsedLine)
deriving Repr

/-- The `advance!` macro of `nocommentiter.rs`: set `previdx` to the
current line's number and pull the next line, or early-return a
`SkipResult` with `nextline = None`. -/
def advance (nl : ParsedLine) (rest : List ParsedLine) : Step :=
  match next rest with
  | none => .done { skip_end := nl.number, nextline := none }
  | some (nl', rest') => .cont nl.number nl' rest'

/-- The `CardLine::Block` arm of `skip_card`: `loop { while the current
line does not start with `s` advance (stopping the inner `while` at a
keyword line); advance once }`. The outer `loop` has no exit, so the only
way out is the end-of-input early return inside `advance!`. -/
def blockLoop (s : Text) (nl : ParsedLine) (rest : List ParsedLine) :
    SkipResult :=
  if !(s.isPrefixOf nl.text) then
    match h : next rest with
    | none => { skip_end := nl.number, nextline := none }
    | some (nl', rest') =>
      if nl'.keyword.isSome then
        match h2 : next rest' with
        | none => { skip_end := nl'.number, nextline := none }
        | some (nl'', rest'') => blockLoop s nl'' rest''
      else blockLoop s nl' rest'
  else
    match h : next rest with
    | none => { skip_end := nl.number, nextline := none }
    | some (nl', rest') => blockLoop s nl' rest'
termination_by rest.length
decreasing_by
  · exact Nat.lt_trans (next_shrinks h2) (next_shrinks h)
  · exact next_shrinks h
  · exact next_shrinks h

/-- The `while` loop of the `CardLine::OptionalBlock` arm: advance until
the current line starts with `s2`, stopping early after consuming a
keyword line. -/
def optBlockLoop (s2 : Text) (previdx : Int) (nl : ParsedLine)
    (rest : List ParsedLine) : Step :=
  if s2.isPrefixOf nl.text then .cont previdx nl rest
  else
    match h : next rest with
    | none => .done { skip_end := nl.number, nextline := none }
    | some (nl', rest') =>
      if nl'.keyword.isSome then .cont nl.number nl' rest'
      else optBlockLoop s2 nl.number nl' rest'
termination_by rest.length
decreasing_by exact next_shrinks h

/-- The `for _ in 0..*num` loop of the `CardLine::Repeat` arm: advance `n`
times, stopping early after an advancement hits a keyword line. -/
def repeatLoop (n : Nat) (previdx : Int) (nl : ParsedLine)
    (rest : List ParsedLine) : Step :=
  match n with
  | 0 => .cont previdx nl rest
  | k + 1 =>
    match next rest with
    | none => .done { skip_end := nl.number, nextline := none }
    | some (nl', rest') =>
      if nl'.keyword.isSome then .cont nl.number nl' rest'
      else repeatLoop k nl.number nl' rest'

/-- The `for cardline in cardlines` loop of `skip_card`, walking the
remaining rows against the cursor. State: the accumulated conditional
results `conds`, the last consumed line number `previdx`, the current line
`nl`, the remaining cursor `rest` and the highlights accumulated so far. -/
def skipCardLoop (conds : List CondResult) (rows : List CardLine)
    (previdx : Int) (nl : ParsedLine) (rest : List ParsedLine)
    (hls : Highlights) : SkipResult × Highlights × List ParsedLine :=
  match rows with
  | [] => ({ skip_end := previdx, nextline := some nl }, hls, rest)
  | row :: rows' =>
    if nl.keyword.isSome then
      ({ skip_end := previdx, nextline := some nl }, hls, rest)
    else
      match row with
      | .Provides _l c =>
        match advance nl rest with
        | .done r => (r, hls, [])
        | .cont p' nl' rest' =>
          skipCardLoop (conds ++ [c.evaluateC nl.text]) rows' p' nl' rest' hls
      | .Ges g =>
        match skip_ges g nl rest with
        | (none, rest') => skipCardLoop conds rows' previdx nl rest' hls
        | (some sr, rest') =>
          match sr.nextline with
          | none => (sr, hls, rest')
          | some pl => skipCardLoop conds rows' sr.skip_end pl rest' hls
      | .Cells _l =>
        let hls' := hls ++ [(nl.number, row.highlights nl.text)]
        match advance nl rest with
        | .done r => (r, hls', [])
        | .cont p' nl' rest' => skipCardLoop conds rows' p' nl' rest' hls'
      | .Optional _l i =>
        if conds.get? i = some (CondResult.Bool true) then
          match advance nl rest with
          | .done r => (r, hls, [])
          | .cont p' nl' rest' => skipCardLoop conds rows' p' nl' rest' hls
        else skipCardLoop conds rows' previdx nl rest hls
      | .Repeat _l i =>
        match conds.get? i with
        | some (CondResult.Number (some u)) =>
          if 0 < u then
            match repeatLoop u.toNat previdx nl rest with
            | .done r => (r, hls, [])
            | .cont p' nl' rest' => skipCardLoop conds rows' p' nl' rest' hls
          else skipCardLoop conds rows' previdx nl rest hls
        | _ => skipCardLoop conds rows' previdx nl rest hls
      | .Block _l s => (blockLoop s nl rest, hls, [])
      | .OptionalBlock s1 s2 =>
        if s1.isPrefixOf nl.text then
          match optBlockLoop s2 previdx nl rest with
          | .done r => (r, hls, [])
          | .cont p' nl' rest' => skipCardLoop conds rows' p' nl' rest' hls
        else skipCardLoop conds rows' previdx nl rest hls

/-- The conditional pushed before the loop of `skip_card` starts: when the
card's first row is a `Provides`, its conditional is evaluated against the
keyword line's text and recorded at index 0. -/
def initConds (first : CardLine) (t : Text) : List CondResult :=
  match first with
  | .Provides _l c => [c.evaluateC t]
  | _ => []

/-- `NoCommentIter::skip_card`: walk one instance of `card` whose keyword
line `skipline` was already consumed. The first row is applied to
`skipline` itself (conditional and highlights) before any cursor
consumption; the panic on an empty row list is modelled by `none`. -/
def skip_card (skipline : ParsedLine) (card : Card) (hls : Highlights)
    (rest : List ParsedLine) :
    Option (SkipResult × Highlights × List ParsedLine) :=
  match card.lines with
  | [] => none
  | first :: rows =>
    let conds := initConds first skipline.text
    let hls' := hls ++ [(skipline.number, first.highlights skipline.text)]
    match next rest with
    | none => some ({ skip_end := skipline.number, nextline := none }, hls', [])
    | some (nl, rest') => some (skipCardLoop conds rows skipline.number nl rest' hls')

end NoCommentIter

/-- Absence of comment lines in a line list. -/
def noCom (ls : List ParsedLine) : Prop :=
  ∀ l ∈ ls, l.keyword ≠ some Keyword.Comment

instance (ls : List ParsedLine) : Decidable (noCom ls) :=
  List.decidableBAll _ ls

/-- The lines of `ls` are numbered consecutively starting at `n`. -/
def numberedFrom : Int → List ParsedLine → Prop
  | _, [] => True
  | n, l :: ls => l.number = n ∧ numberedFrom (n + 1) ls

instance instDecNumberedFrom : (n : Int) → (ls : List ParsedLine) →
    Decidable (numberedFrom n ls)
  | _, [] => .isTrue trivial
  | n, l :: ls => @instDecidableAnd _ _ inferInstance (instDecNumberedFrom (n + 1) ls)

/-- The invariant maintained by `skip_card`'s walk on comment-free,
consecutively numbered input: the current line follows the last consumed
one directly and the remaining cursor continues the numbering. -/
def Inv (base previdx : Int) (nl : ParsedLine) (rest : List ParsedLine) : Prop :=
  base ≤ previdx ∧ nl.number = previdx + 1 ∧
    numberedFrom (previdx + 2) rest ∧ noCom rest

/-- Modelled from the spec: the `NODE` card of the external registry
(`carddata`, not under `src/`) is a single fixed-cell row without its own
fold. -/
def NODE : Card := { keyword := Keyword.Node, ownfold := false, lines := [CardLine.Cells 0] }

/-- Modelled from the spec: the `MASS` card of the external registry
"expecting a trailing `NAME` line and six-field row" — a fixed-cell
keyword row followed by the `NAME` row and the six-field row. -/
def MASS : Card :=
  { keyword := Keyword.Mass, ownfold := true,
    lines := [CardLine.Cells 0, CardLine.Cells 1, CardLine.Cells 2] }

/-- A card whose second row is a `Block` with terminator prefix `END`,
exercising the `CardLine::Block` arm of `skip_card`. -/
def BLOCKCARD : Card :=
  { keyword := Keyword.Nsmas, ownfold := true,
    lines := [CardLine.Cells 0, CardLine.Block 1 ("END".toList), CardLine.Cells 2] }

/-- A card whose first row is a `Provides`, exercising the conditional
pushed for the keyword line itself. -/
def PCARD : Card :=
  { keyword := Keyword.Nsmas, ownfold := true,
    lines := [CardLine.Provides 0 (Conditional.RelChar 0 'N'), CardLine.Optional 1 0] }

/-- Lines 0-8 of the spec's GES scenario (`PART 1234` … `END`); none of
them carries a keyword. -/
def gesL : Nat → ParsedLine
  | 0 => ⟨0, "        PART 1234".toList, none⟩
  | 1 => ⟨1, "        OGRP \x27hausbau\x27".toList, none⟩
  | 2 => ⟨2, "        END".toList, none⟩
  | 3 => ⟨3, "        DELGRP>NOD \x27nix\x27".toList, none⟩
  | 4 => ⟨4, "        MOD 10234".toList, none⟩
  | 5 => ⟨5, "        NOD 1 23 093402 82".toList, none⟩
  | 6 => ⟨6, "        END_MOD".toList, none⟩
  | 7 => ⟨7, "        DELELE 12".toList, none⟩
  | _ => ⟨8, "        END".toList, none⟩

/-- Lines 0-8 of the incomplete-`MASS`-card scenario (the
`CARD_MASS_INCOMPLETE` input): comments, the `MASS` keyword line, the
`NAME` line, further comments, then a `NODE` keyword line. -/
def massL : Nat → ParsedLine
  | 0 => ⟨0, "$ MASS Card".toList, some Keyword.Comment⟩
  | 1 => ⟨1, "$#         IDNOD    IFRA   Blank            DISr            DISs            DISt".toList, some Keyword.Comment⟩
  | 2 => ⟨2, "MASS  /        0       0                                                        ".toList, some Keyword.Mass⟩
  | 3 => ⟨3, "$#                                                                         TITLE".toList, some Keyword.Comment⟩
  | 4 => ⟨4, "NAME MASS  / ->1                                                                ".toList, none⟩
  | 5 => ⟨5, "$# BLANK              Mx              My              Mz".toList, some Keyword.Comment⟩
  | 6 => ⟨6, "$# BLANK              Ix              Iy              Iz                   Blank".toList, some Keyword.Comment⟩
  | 7 => ⟨7, "NODE  /      ".toList, some Keyword.Node⟩
  | _ => ⟨8, "                                                        ".toList, none⟩

/-- A `NODE` keyword line, a comment, and another `NODE` keyword line:
well-formed input on which a comment separates two card instances. -/
def cmtL : Nat → ParsedLine
  | 0 => ⟨0, "NODE  /        1              0.             0.5              0.".toList, some Keyword.Node⟩
  | 1 => ⟨1, "#Comment here".toList, some Keyword.Comment⟩
  | _ => ⟨2, "NODE  /        1              0.             0.5              0.".toList, some Keyword.Node⟩

/-- Input for the `Block` row: a keyword line, a plain line, a line
starting with the terminator `END`, and two further plain lines. -/
def blkL : Nat → ParsedLine
  | 0 => ⟨0, "NSMAS /        1".toList, some Keyword.Nsmas⟩
  | 1 => ⟨1, "x".toList, none⟩
  | 2 => ⟨2, "END".toList, none⟩
  | 3 => ⟨3, "y".toList, none⟩
  | _ => ⟨4, "z".toList, none⟩

/-- The list of lines yielded by iterating the comment-filtering cursor to
exhaustion (the `while let` loop of `NoCommentIter::next`, unrolled over
the whole underlying sequence). -/
def NoCommentIter.yielded : List ParsedLine → List ParsedLine
  | [] => []
  | l :: ls =>
    if l.keyword = some Keyword.Comment then NoCommentIter.yielded ls
    else l :: NoCommentIter.yielded ls

theorem take_one_drop_eq (t : Text) (i : Nat) (c : Char) :
    (t.drop i).take 1 = [c] ↔ t.get? i = some c := by
  induction t generalizing i with
  | nil => simp
  | cons x xs ih =>
    cases i with
    | zero => simp
    | succ j => simpa using ih j

/-- Claim C8: `Conditional::evaluate` on `RelChar(i, c)` is true exactly
when the line's character at index `i` is `c`, and is false (not an error)
whenever `i` is out of bounds. -/
theorem claim_C8 (t : Text) (i : Nat) (c : Char) :
    (Conditional.evaluate (Conditional.RelChar i c) t = true ↔ t.get? i = some c) ∧
    (t.length ≤ i → Conditional.evaluate (Conditional.RelChar i c) t = false) := by
  refine ⟨?_, ?_⟩
  · simp [Conditional.evaluate, take_one_drop_eq]
  · intro hlen
    have hnone : t.get? i = none := List.get?_eq_none.mpr hlen
    simp only [Conditional.evaluate, decide_eq_false_iff_not, take_one_drop_eq, hnone]
    intro hcon
    cases hcon

/-- Witness for claim C8 at the inputs of the source's own tests. -/
theorem claim_C8_witness :
    Conditional.evaluate (Conditional.RelChar 2 'b') ("abbxy oaslkj".toList) = true ∧
    Conditional.evaluate (Conditional.RelChar 95 'b') ("abbxy oaslkj".toList) = false :=
  ⟨(claim_C8 _ 2 'b').1.mpr (by decide), (claim_C8 _ 95 'b').2 (by decide)⟩

theorem next_not_comment {ls rest : List ParsedLine} {l : ParsedLine}
    (hnext : NoCommentIter.next ls = some (l, rest)) :
    l.keyword ≠ some Keyword.Comment := by
  induction ls generalizing l rest with
  | nil => simp [NoCommentIter.next] at hnext
  | cons x xs ih =>
    simp only [NoCommentIter.next] at hnext
    split at hnext
    · exact ih hnext
    · cases hnext
      simpa using by assumption

theorem yielded_eq_next (ls : List ParsedLine) :
    NoCommentIter.yielded ls =
      (match NoCommentIter.next ls with
       | none => []
       | some (l, rest) => l :: NoCommentIter.yielded rest) := by
  induction ls with
  | nil => rfl
  | cons l ls ih =>
    by_cases hc : l.keyword = some Keyword.Comment
    · simp [NoCommentIter.yielded, NoCommentIter.next, hc, ih]
    · simp [NoCommentIter.yielded, NoCommentIter.next, hc]

/-- Claim C6: the comment-filtering cursor yields exactly the non-comment
lines of the underlying sequence (so it never yields a `Comment` line,
omits every `Comment` line, and exhausts exactly when the underlying
sequence has no line left to yield). -/
theorem claim_C6 (ls : List ParsedLine) :
    NoCommentIter.yielded ls
        = ls.filter (fun l => decide (l.keyword ≠ some Keyword.Comment)) ∧
    (∀ l ∈ NoCommentIter.yielded ls, l.keyword ≠ some Keyword.Comment) ∧
    (∀ l rest, NoCommentIter.next ls = some (l, rest) →
      l.keyword ≠ some Keyword.Comment ∧
        l :: NoCommentIter.yielded rest = NoCommentIter.yielded ls) ∧
    (NoCommentIter.next ls = none ↔ NoCommentIter.yielded ls = []) := by
  have hfil : NoCommentIter.yielded ls
      = ls.filter (fun l => decide (l.keyword ≠ some Keyword.Comment)) := by
    induction ls with
    | nil => rfl
    | cons l ls ih =>
      by_cases hc : l.keyword = some Keyword.Comment <;>
        simp [NoCommentIter.yielded, List.filter, hc, ih]
  refine ⟨hfil, ?_, ?_, ?_⟩
  · intro l hl
    rw [hfil] at hl
    exact of_decide_eq_true (List.mem_filter.mp hl).2
  · intro l rest hnext
    refine ⟨next_not_comment hnext, ?_⟩
    rw [yielded_eq_next ls, hnext]
  · rw [yielded_eq_next ls]
    cases hnext : NoCommentIter.next ls with
    | none => simp
    | some p => simp

/-- Witness for claim C6: the line yielded after skipping a comment is not
a comment line. -/
theorem claim_C6_witness : (cmtL 2).keyword ≠ some Keyword.Comment :=
  (claim_C6 [cmtL 1, cmtL 2]).2.1 (cmtL 2) (by decide)

/-- Claim C10: `skip_card` panics (modelled as `none`) exactly on a card
with an empty row list; every card with at least one row produces a
result, so non-emptiness of `card.lines` is the implicit precondition. -/
theorem claim_C10 (skipline : ParsedLine) (card : Card) (hls : Highlights)
    (rest : List ParsedLine) :
    NoCommentIter.skip_card skipline card hls rest = none ↔ card.lines = [] := by
  constructor
  · intro heq
    cases hc : card.lines with
    | nil => rfl
    | cons f rows =>
      rw [NoCommentIter.skip_card, hc] at heq
      cases h2 : NoCommentIter.next rest with
      | none => rw [h2] at heq; simp at heq
      | some p => rw [h2] at heq; simp at heq
  · intro hc
    rw [NoCommentIter.skip_card, hc]

/-- Witness for claim C10 at a concrete nonempty and a concrete empty card. -/
theorem claim_C10_witness :
    NoCommentIter.skip_card (cmtL 0) NODE [] [] ≠ none ∧
    NoCommentIter.skip_card (cmtL 0) { keyword := Keyword.Node, ownfold := false, lines := [] } [] [] = none := by
  refine ⟨?_, ?_⟩
  · intro h
    exact absurd ((claim_C10 (cmtL 0) NODE [] []).mp h) (by decide)
  · exact (claim_C10 (cmtL 0) _ [] []).mpr rfl

/-- Claim C7: an `Optional` row whose conditional index does not resolve to
a recorded `Bool(true)` (in particular an out-of-range index, a missing
evaluation, or a result of the wrong shape) is skipped without consuming
input, and a `Repeat` row whose index does not resolve to a positive count
consumes zero repetitions; the walk continues with the next row, no error. -/
theorem claim_C7 (conds : List CondResult) (lay i : Nat) (rows : List CardLine)
    (p : Int) (nl : ParsedLine) (rest : List ParsedLine) (hls : Highlights) :
    (conds.get? i ≠ some (CondResult.Bool true) →
      NoCommentIter.skipCardLoop conds (CardLine.Optional lay i :: rows) p nl rest hls =
        NoCommentIter.skipCardLoop conds rows p nl rest hls) ∧
    ((∀ u : Int, conds.get? i = some (CondResult.Number (some u)) → u ≤ 0) →
      NoCommentIter.skipCardLoop conds (CardLine.Repeat lay i :: rows) p nl rest hls =
        NoCommentIter.skipCardLoop conds rows p nl rest hls) := by
  constructor
  · intro hC
    rw [List.get?_eq_getElem?] at hC
    by_cases hk : nl.keyword.isSome
    · cases rows <;> simp [NoCommentIter.skipCardLoop, hk]
    · simp [NoCommentIter.skipCardLoop, hk, hC]
  · intro hU
    by_cases hk : nl.keyword.isSome
    · cases rows <;> simp [NoCommentIter.skipCardLoop, hk]
    · cases hg : conds.get? i with
      | none =>
        rw [List.get?_eq_getElem?] at hg
        simp [NoCommentIter.skipCardLoop, hk, hg]
      | some cr =>
        cases cr with
        | Bool b =>
          rw [List.get?_eq_getElem?] at hg
          simp [NoCommentIter.skipCardLoop, hk, hg]
        | Number n =>
          cases n with
          | none =>
            rw [List.get?_eq_getElem?] at hg
            simp [NoCommentIter.skipCardLoop, hk, hg]
          | some u =>
            have hle : ¬ 0 < u := by
              have := hU u hg
              omega
            rw [List.get?_eq_getElem?] at hg
            simp [NoCommentIter.skipCardLoop, hk, hg, hle]

/-- Witness for claim C7: index 0 is out of range of an empty conditional
list, so the `Optional` and the `Repeat` row are both no-ops. -/
theorem claim_C7_witness :
    NoCommentIter.skipCardLoop [] [CardLine.Optional 0 0] 5 (blkL 1) [] [] =
      NoCommentIter.skipCardLoop [] [] 5 (blkL 1) [] [] ∧
    NoCommentIter.skipCardLoop [] [CardLine.Repeat 0 0] 5 (blkL 1) [] [] =
      NoCommentIter.skipCardLoop [] [] 5 (blkL 1) [] [] :=
  ⟨(claim_C7 [] 0 0 [] 5 (blkL 1) [] []).1 (by decide),
   (claim_C7 [] 0 0 [] 5 (blkL 1) [] []).2 (by intro u h; simp [List.get?] at h)⟩

/-- Claim C4: on the incomplete `MASS` input (first data row, then
comments, then directly a `NODE` keyword line), `skip_card` ends the card
at the last consumed data line (`skip_end = 4`, the `NAME` line) and
reports the `NODE` line as `nextline`; no failure occurs. -/
theorem claim_C4 :
    NoCommentIter.skip_card (massL 2) MASS []
        [massL 3, massL 4, massL 5, massL 6, massL 7, massL 8] =
      some ({ skip_end := 4, nextline := some (massL 7) },
        [(2, some (0, (massL 2).text)), (4, some (1, (massL 4).text))],
        [massL 8]) := by
  decide

/-- Counterexample for claim C1: on well-formed input where a comment line
separates two `NODE` cards, the returned `nextline` is the next non-comment
line, whose index (2) is not `skip_end + 1` (1). -/
theorem claim_C1_counterexample :
    NoCommentIter.skip_card (cmtL 0) NODE [] [cmtL 1, cmtL 2] =
      some ({ skip_end := 0, nextline := some (cmtL 2) },
        [(0, some (0, (cmtL 0).text))], []) ∧
    (cmtL 2).number ≠ 0 + 1 := by
  decide

theorem next_suffix {ls rest : List ParsedLine} {l : ParsedLine}
    (h : NoCommentIter.next ls = some (l, rest)) : (l :: rest) <:+ ls := by
  induction ls generalizing l rest with
  | nil => simp [NoCommentIter.next] at h
  | cons x xs ih =>
    simp only [NoCommentIter.next] at h
    split at h
    · exact (ih h).trans (List.suffix_cons x xs)
    · cases h
      exact List.suffix_refl _

theorem gesLoop_spec (g : GesType) (p : Int) (nl : ParsedLine)
    (rest : List ParsedLine) :
    ((NoCommentIter.gesLoop g p nl rest).1.nextline = none →
      (NoCommentIter.gesLoop g p nl rest).2 = []) ∧
    (∀ nl2, (NoCommentIter.gesLoop g p nl rest).1.nextline = some nl2 →
      nl2 :: (NoCommentIter.gesLoop g p nl rest).2 <:+ nl :: rest) := by
  induction p, nl, rest using NoCommentIter.gesLoop.induct g with
  | case1 p nl rest hc hn =>
    rw [NoCommentIter.gesLoop, if_pos hc, hn]
    exact ⟨fun _ => rfl, fun nl2 h2 => by cases h2⟩
  | case2 p nl rest hc nl' rest' hn ih =>
    rw [NoCommentIter.gesLoop, if_pos hc, hn]
    refine ⟨ih.1, fun nl2 h2 => ?_⟩
    exact ((ih.2 nl2 h2).trans (next_suffix hn)).trans (List.suffix_cons nl rest)
  | case3 p nl rest hc he hn =>
    rw [NoCommentIter.gesLoop, if_neg hc, if_pos he, hn]
    exact ⟨fun _ => rfl, fun nl2 h2 => by cases h2⟩
  | case4 p nl rest hc he nl' rest' hn =>
    rw [NoCommentIter.gesLoop, if_neg hc, if_pos he, hn]
    refine ⟨fun h => (by cases h), fun nl2 h2 => ?_⟩
    cases h2
    exact (next_suffix hn).trans (List.suffix_cons nl rest)
  | case5 p nl rest hc he =>
    rw [NoCommentIter.gesLoop, if_neg hc, if_neg he]
    exact ⟨fun h => (by cases h), fun nl2 h2 => (by cases h2; exact List.suffix_refl _)⟩

/-- Claim C3: `skip_ges` is total and its case split is exhaustive: it
returns "not applicable" (`none`) exactly when the current line satisfies
neither `contains` nor `ended_by`, and then the cursor is untouched; when
`ended_by` holds, `skip_end` is the current line's index and `nextline` the
next cursor line (or `none` at end of input); in every applicable case,
`nextline = none` only at end of input, and a present `nextline` is the
first unconsumed line (everything before it was consumed, nothing after). -/
theorem claim_C3 (g : GesType) (l : ParsedLine) (rest : List ParsedLine) :
    ((NoCommentIter.skip_ges g l rest).1 = none ↔
      (g.contains l.text = false ∧ g.ended_by l.text = false)) ∧
    ((NoCommentIter.skip_ges g l rest).1 = none →
      (NoCommentIter.skip_ges g l rest).2 = rest) ∧
    (g.ended_by l.text = true →
      (NoCommentIter.skip_ges g l rest).1 =
        some { skip_end := l.number,
               nextline := (NoCommentIter.next rest).map Prod.fst }) ∧
    (∀ sr rest', NoCommentIter.skip_ges g l rest = (some sr, rest') →
      (sr.nextline = none → rest' = []) ∧
      (∀ nl, sr.nextline = some nl → nl :: rest' <:+ rest)) := by
  by_cases hE : g.ended_by l.text
  · cases hn : NoCommentIter.next rest with
    | none =>
      have hv : NoCommentIter.skip_ges g l rest =
          (some { skip_end := l.number, nextline := none }, []) := by
        simp [NoCommentIter.skip_ges, hE, hn]
      refine ⟨by simp [hv, hE], by simp [hv], by simp [hv, hn], ?_⟩
      intro sr rest' h
      rw [hv] at h
      injection h with h1 h2
      injection h1 with h1
      subst h2
      cases h1
      exact ⟨fun _ => rfl, fun nl h2 => by cases h2⟩
    | some p =>
      obtain ⟨nl1, rest1⟩ := p
      have hv : NoCommentIter.skip_ges g l rest =
          (some { skip_end := l.number, nextline := some nl1 }, rest1) := by
        simp [NoCommentIter.skip_ges, hE, hn]
      refine ⟨by simp [hv, hE], by simp [hv], by simp [hv, hn], ?_⟩
      intro sr rest' h
      rw [hv] at h
      injection h with h1 h2
      injection h1 with h1
      subst h2
      cases h1
      exact ⟨fun h2 => (by cases h2), fun nl h2 => (by cases h2; exact next_suffix hn)⟩
  · by_cases hC : g.contains l.text
    · cases hn : NoCommentIter.next rest with
      | none =>
        have hv : NoCommentIter.skip_ges g l rest =
            (some { skip_end := l.number, nextline := none }, []) := by
          simp [NoCommentIter.skip_ges, hE, hC, hn]
        refine ⟨by simp [hv, hC], by simp [hv], by simp [hE], ?_⟩
        intro sr rest' h
        rw [hv] at h
        injection h with h1 h2
        injection h1 with h1
        subst h2
        cases h1
        exact ⟨fun _ => rfl, fun nl h2 => by cases h2⟩
      | some p =>
        obtain ⟨nl1, rest1⟩ := p
        have hv : NoCommentIter.skip_ges g l rest =
            (some (NoCommentIter.gesLoop g l.number nl1 rest1).1,
              (NoCommentIter.gesLoop g l.number nl1 rest1).2) := by
          simp [NoCommentIter.skip_ges, hE, hC, hn]
        refine ⟨by simp [hv, hC], by simp [hv], by simp [hE], ?_⟩
        intro sr rest' h
        rw [hv] at h
        injection h with h1 h2
        injection h1 with h1
        subst h2
        cases h1
        refine ⟨(gesLoop_spec g l.number nl1 rest1).1, fun nl h2 => ?_⟩
        exact ((gesLoop_spec g l.number nl1 rest1).2 nl h2).trans (next_suffix hn)
    · have hv : NoCommentIter.skip_ges g l rest = (none, rest) := by
        simp [NoCommentIter.skip_ges, hE, hC]
      refine ⟨?_, by simp [hv], by simp [hE], ?_⟩
      · rw [hv]
        constructor
        · intro _
          exact ⟨by simpa using hC, by simpa using hE⟩
        · intro _
          rfl
      · intro sr rest' h
        rw [hv] at h
        injection h with h1 h2
        cases h1

/-- Witness for claim C3: a line in no GES relation ("wupdiwup") yields
"not applicable" with the cursor untouched, and a terminator line yields
the terminal result. -/
theorem claim_C3_witness :
    (NoCommentIter.skip_ges GesType.GesNode (blkL 1) [blkL 3]).1 = none ∧
    (NoCommentIter.skip_ges GesType.GesNode (gesL 2) []).1 =
      some { skip_end := 2, nextline := none } :=
  ⟨((claim_C3 GesType.GesNode (blkL 1) [blkL 3]).1).mpr (by decide),
   by
    have h := ((claim_C3 GesType.GesNode (gesL 2) []).2.2.1) (by decide)
    simpa using h⟩

/-- Claim C5: on the nine-line GES scenario, the first `skip_ges` from line
0 ends at `skip_end = 2` with line 3 (`DELGRP>NOD ...`) as `nextline`, and
the second call from line 3 ends at `skip_end = 8` with no `nextline`. -/
theorem claim_C5 :
    NoCommentIter.skip_ges GesType.GesNode (gesL 0)
        [gesL 1, gesL 2, gesL 3, gesL 4, gesL 5, gesL 6, gesL 7, gesL 8] =
      (some { skip_end := 2, nextline := some (gesL 3) },
        [gesL 4, gesL 5, gesL 6, gesL 7, gesL 8]) ∧
    NoCommentIter.skip_ges GesType.GesNode (gesL 3)
        [gesL 4, gesL 5, gesL 6, gesL 7, gesL 8] =
      (some { skip_end := 8, nextline := none }, []) := by
  constructor <;>
    simp [NoCommentIter.skip_ges, NoCommentIter.gesLoop, NoCommentIter.next,
      gesL, GesType.contains, GesType.ended_by, firstToken]

theorem noCom_tail {x : ParsedLine} {xs : List ParsedLine}
    (h : noCom (x :: xs)) : noCom xs :=
  fun l hl => h l (List.mem_cons_of_mem x hl)

theorem next_of_noCom {x : ParsedLine} {xs : List ParsedLine}
    (h : noCom (x :: xs)) : NoCommentIter.next (x :: xs) = some (x, xs) := by
  have hx : x.keyword ≠ some Keyword.Comment := h x (List.mem_cons_self x xs)
  simp [NoCommentIter.next, hx]

theorem next_none_of_noCom {ls : List ParsedLine} (hnc : noCom ls)
    (h : NoCommentIter.next ls = none) : ls = [] := by
  cases ls with
  | nil => rfl
  | cons x xs => rw [next_of_noCom hnc] at h; cases h

theorem next_noCom_eq {ls r : List ParsedLine} {l : ParsedLine}
    (hnc : noCom ls) (h : NoCommentIter.next ls = some (l, r)) : ls = l :: r := by
  cases ls with
  | nil => simp [NoCommentIter.next] at h
  | cons x xs =>
    rw [next_of_noCom hnc] at h
    injection h with h
    injection h with h1 h2
    rw [h1, h2]

theorem blockLoop_run_aux (s : Text) :
    ∀ (n : Nat) (rest : List ParsedLine) (nl : ParsedLine), rest.length ≤ n →
    noCom rest → numberedFrom (nl.number + 1) rest →
    NoCommentIter.blockLoop s nl rest =
      { skip_end := nl.number + rest.length, nextline := none } := by
  have h0 : ∀ z : ParsedLine, NoCommentIter.blockLoop s z [] =
      { skip_end := z.number, nextline := none } := by
    intro z
    rw [NoCommentIter.blockLoop]
    by_cases hp : ((!(s.isPrefixOf z.text)) = true)
    · rw [if_pos hp]
      rfl
    · rw [if_neg hp]
      rfl
  intro n
  induction n with
  | zero =>
    intro rest nl hlen hnc hnum
    have hr : rest = [] := List.length_eq_zero.mp (Nat.le_zero.mp hlen)
    subst hr
    simp [h0 nl]
  | succ k ih =>
    intro rest nl hlen hnc hnum
    cases rest with
    | nil => simp [h0 nl]
    | cons x xs =>
      obtain ⟨hx1, hx2⟩ := hnum
      have hnx := next_of_noCom hnc
      have hlx : xs.length ≤ k := by simpa using hlen
      have hn0 : NoCommentIter.next ([] : List ParsedLine) = none := rfl
      cases xs with
      | nil =>
        rw [NoCommentIter.blockLoop]
        by_cases hp : ((!(s.isPrefixOf nl.text)) = true)
        · rw [if_pos hp, hnx]
          by_cases hk : (x.keyword.isSome = true)
          · simp only [hk, if_true]
            rw [hn0]
            simp [hx1]
          · simp [hk, hn0, h0, hx1]
        · rw [if_neg hp, hnx]
          simp [h0, hx1]
      | cons y ys =>
        obtain ⟨hy1, hy2⟩ := hx2
        have hny : NoCommentIter.next (y :: ys) = some (y, ys) :=
          next_of_noCom (noCom_tail hnc)
        have ihx : NoCommentIter.blockLoop s x (y :: ys) =
            { skip_end := x.number + (y :: ys).length, nextline := none } := by
          refine ih (y :: ys) x hlx (noCom_tail hnc) ?_
          have hx1' : x.number + 1 = nl.number + 1 + 1 := by omega
          rw [hx1']
          exact ⟨hy1, hy2⟩
        have ihy : NoCommentIter.blockLoop s y ys =
            { skip_end := y.number + ys.length, nextline := none } := by
          refine ih ys y (by simpa using Nat.le_of_succ_le hlen)
            (noCom_tail (noCom_tail hnc)) ?_
          have hy1' : y.number + 1 = nl.number + 1 + 1 + 1 := by omega
          rw [hy1']
          exact hy2
        rw [NoCommentIter.blockLoop]
        by_cases hp : ((!(s.isPrefixOf nl.text)) = true)
        · rw [if_pos hp, hnx]
          by_cases hk : (x.keyword.isSome = true)
          · simp only [hk, if_true]
            rw [hny]
            simp only [ihy, SkipResult.mk.injEq, List.length_cons, and_true]
            omega
          · simp only [hk, Bool.false_eq_true, if_false, ihx,
              SkipResult.mk.injEq, List.length_cons, and_true]
            omega
        · rw [if_neg hp, hnx]
          simp only [ihx, SkipResult.mk.injEq, List.length_cons, and_true]
          omega

theorem blockLoop_run (rest : List ParsedLine) (s : Text) (nl : ParsedLine)
    (hnc : noCom rest) (hnum : numberedFrom (nl.number + 1) rest) :
    NoCommentIter.blockLoop s nl rest =
      { skip_end := nl.number + rest.length, nextline := none } :=
  blockLoop_run_aux s rest.length rest nl (Nat.le_refl _) hnc hnum

/-- Amended claim C2: once the walker reaches a `Block` row on a
non-keyword line, the outer `loop` of the `Block` arm never exits: the
walker consumes every remaining line (comment-free, consecutively numbered
input), never reaches the card's following rows, does not stop at keyword
lines, and `skip_card` ends with `skip_end` at the very last input line
and `nextline = None`. -/
theorem claim_C2_amended (conds : List CondResult) (lay : Nat) (s : Text)
    (rows : List CardLine) (p : Int) (nl : ParsedLine)
    (rest : List ParsedLine) (hls : Highlights)
    (hk : nl.keyword = none) (hnc : noCom rest)
    (hnum : numberedFrom (nl.number + 1) rest) :
    NoCommentIter.skipCardLoop conds (CardLine.Block lay s :: rows) p nl rest hls =
      ({ skip_end := nl.number + rest.length, nextline := none }, hls, []) := by
  rw [NoCommentIter.skipCardLoop]
  simp [hk, blockLoop_run rest s nl hnc hnum]

/-- Witness for the amended claim C2: a `Block` row on the concrete input
swallows the terminator line and both following lines, up to end of input. -/
theorem claim_C2_amended_witness :
    NoCommentIter.skipCardLoop [] [CardLine.Block 1 ("END".toList), CardLine.Cells 2]
        0 (blkL 1) [blkL 2, blkL 3, blkL 4] [] =
      ({ skip_end := 4, nextline := none }, [], []) := by
  have h := claim_C2_amended [] 1 ("END".toList) [CardLine.Cells 2] 0 (blkL 1)
    [blkL 2, blkL 3, blkL 4] [] (by decide) (by decide) (by decide)
  simpa using h

/-- Counterexample for claim C2: on the concrete input with terminator at
line 2, the code does not stop after the terminator and does not proceed to
the card's next row (which would have given `skip_end = 3` and line 4 as
`nextline`, with a highlight for line 3); it consumes everything to end of
input. -/
theorem claim_C2_counterexample :
    NoCommentIter.skip_card (blkL 0) BLOCKCARD [] [blkL 1, blkL 2, blkL 3, blkL 4] =
      some ({ skip_end := 4, nextline := none },
        [(0, some (0, (blkL 0).text))], []) ∧
    ({ skip_end := 4, nextline := none } : SkipResult) ≠
      { skip_end := 3, nextline := some (blkL 4) } := by
  constructor
  · have hb : NoCommentIter.blockLoop ("END".toList) (blkL 1) [blkL 2, blkL 3, blkL 4] =
        { skip_end := 4, nextline := none } := by
      have h := blockLoop_run [blkL 2, blkL 3, blkL 4] ("END".toList) (blkL 1)
        (by decide) (by decide)
      simpa using h
    have hn1 : NoCommentIter.next [blkL 1, blkL 2, blkL 3, blkL 4] =
        some (blkL 1, [blkL 2, blkL 3, blkL 4]) := by decide
    have hk1 : (blkL 1).keyword = none := by decide
    rw [NoCommentIter.skip_card]
    simp [BLOCKCARD, hn1, NoCommentIter.initConds, CardLine.highlights,
      NoCommentIter.skipCardLoop, hk1]
    exact ⟨by simpa using hb, by decide⟩
  · decide

theorem skipCardLoop_hls : ∀ (rows : List CardLine) (conds : List CondResult)
    (p : Int) (nl : ParsedLine) (rest : List ParsedLine) (hls : Highlights),
    ∃ tl, (NoCommentIter.skipCardLoop conds rows p nl rest hls).2.1 = hls ++ tl := by
  intro rows
  induction rows with
  | nil =>
    intro conds p nl rest hls
    exact ⟨[], by simp [NoCommentIter.skipCardLoop]⟩
  | cons row rows' ih =>
    intro conds p nl rest hls
    by_cases hk : (nl.keyword.isSome = true)
    · exact ⟨[], by simp [NoCommentIter.skipCardLoop, hk]⟩
    · cases row with
      | Provides lay c =>
        cases ha : NoCommentIter.advance nl rest with
        | done r => exact ⟨[], by simp [NoCommentIter.skipCardLoop, hk, ha]⟩
        | cont p' nl' rest' =>
          obtain ⟨tl, htl⟩ := ih (conds ++ [c.evaluateC nl.text]) p' nl' rest' hls
          exact ⟨tl, by simp [NoCommentIter.skipCardLoop, hk, ha, htl]⟩
      | Ges g =>
        cases hsg : NoCommentIter.skip_ges g nl rest with
        | mk osr rest2 =>
          cases osr with
          | none =>
            obtain ⟨tl, htl⟩ := ih conds p nl rest2 hls
            exact ⟨tl, by simp [NoCommentIter.skipCardLoop, hk, hsg, htl]⟩
          | some sr =>
            cases hnl : sr.nextline with
            | none => exact ⟨[], by simp [NoCommentIter.skipCardLoop, hk, hsg, hnl]⟩
            | some pl =>
              obtain ⟨tl, htl⟩ := ih conds sr.skip_end pl rest2 hls
              exact ⟨tl, by simp [NoCommentIter.skipCardLoop, hk, hsg, hnl, htl]⟩
      | Cells lay =>
        cases ha : NoCommentIter.advance nl rest with
        | done r =>
          exact ⟨[(nl.number, (CardLine.Cells lay).highlights nl.text)],
            by simp [NoCommentIter.skipCardLoop, hk, ha]⟩
        | cont p' nl' rest' =>
          obtain ⟨tl, htl⟩ := ih conds p' nl' rest'
            (hls ++ [(nl.number, (CardLine.Cells lay).highlights nl.text)])
          exact ⟨(nl.number, (CardLine.Cells lay).highlights nl.text) :: tl,
            by simp [NoCommentIter.skipCardLoop, hk, ha, htl]⟩
      | Optional lay i =>
        by_cases hc : (conds[i]? = some (CondResult.Bool true))
        · cases ha : NoCommentIter.advance nl rest with
          | done r => exact ⟨[], by simp [NoCommentIter.skipCardLoop, hk, hc, ha]⟩
          | cont p' nl' rest' =>
            obtain ⟨tl, htl⟩ := ih conds p' nl' rest' hls
            exact ⟨tl, by simp [NoCommentIter.skipCardLoop, hk, hc, ha, htl]⟩
        · obtain ⟨tl, htl⟩ := ih conds p nl rest hls
          exact ⟨tl, by simp [NoCommentIter.skipCardLoop, hk, hc, htl]⟩
      | Repeat lay i =>
        cases hg : conds[i]? with
        | none =>
          obtain ⟨tl, htl⟩ := ih conds p nl rest hls
          exact ⟨tl, by simp [NoCommentIter.skipCardLoop, hk, hg, htl]⟩
        | some cr =>
          cases cr with
          | Bool b =>
            obtain ⟨tl, htl⟩ := ih conds p nl rest hls
            exact ⟨tl, by simp [NoCommentIter.skipCardLoop, hk, hg, htl]⟩
          | Number n =>
            cases n with
            | none =>
              obtain ⟨tl, htl⟩ := ih conds p nl rest hls
              exact ⟨tl, by simp [NoCommentIter.skipCardLoop, hk, hg, htl]⟩
            | some u =>
              by_cases hu : (0 < u)
              · cases hr : NoCommentIter.repeatLoop u.toNat p nl rest with
                | done r =>
                  exact ⟨[], by simp [NoCommentIter.skipCardLoop, hk, hg, hu, hr]⟩
                | cont p' nl' rest' =>
                  obtain ⟨tl, htl⟩ := ih conds p' nl' rest' hls
                  exact ⟨tl, by simp [NoCommentIter.skipCardLoop, hk, hg, hu, hr, htl]⟩
              · obtain ⟨tl, htl⟩ := ih conds p nl rest hls
                exact ⟨tl, by simp [NoCommentIter.skipCardLoop, hk, hg, hu, htl]⟩
      | Block lay s =>
        exact ⟨[], by simp [NoCommentIter.skipCardLoop, hk]⟩
      | OptionalBlock s1 s2 =>
        by_cases hs : (s1.isPrefixOf nl.text = true)
        · cases ho : NoCommentIter.optBlockLoop s2 p nl rest with
          | done r => exact ⟨[], by simp [NoCommentIter.skipCardLoop, hk, hs, ho]⟩
          | cont p' nl' rest' =>
            obtain ⟨tl, htl⟩ := ih conds p' nl' rest' hls
            exact ⟨tl, by simp [NoCommentIter.skipCardLoop, hk, hs, ho, htl]⟩
        · obtain ⟨tl, htl⟩ := ih conds p nl rest hls
          exact ⟨tl, by simp [NoCommentIter.skipCardLoop, hk, hs, htl]⟩

/-- Claim C9: `skip_card` applies the card's first row to the keyword line
`skipline` itself before consuming anything from the cursor: even on empty
remaining input the first row's highlight for `skipline` is emitted, the
highlight for `skipline` always directly follows the previously accumulated
highlights, and a `Provides` first row records its conditional evaluated on
`skipline`'s text as conditional index 0. -/
theorem claim_C9 (skipline : ParsedLine) (card : Card) (hls : Highlights)
    (rest : List ParsedLine) (first : CardLine) (rows : List CardLine)
    (hc : card.lines = first :: rows) :
    (NoCommentIter.skip_card skipline card hls [] =
      some ({ skip_end := skipline.number, nextline := none },
        hls ++ [(skipline.number, first.highlights skipline.text)], [])) ∧
    (∀ out, NoCommentIter.skip_card skipline card hls rest = some out →
      ∃ tl, out.2.1 =
        hls ++ (skipline.number, first.highlights skipline.text) :: tl) ∧
    (∀ lay c, first = CardLine.Provides lay c →
      (NoCommentIter.initConds first skipline.text).get? 0 =
        some (c.evaluateC skipline.text)) := by
  refine ⟨?_, ?_, ?_⟩
  · rw [NoCommentIter.skip_card, hc]
    rfl
  · intro out hout
    rw [NoCommentIter.skip_card, hc] at hout
    cases hn : NoCommentIter.next rest with
    | none =>
      rw [hn] at hout
      injection hout with hout
      subst hout
      exact ⟨[], rfl⟩
    | some pr =>
      obtain ⟨nl, rest'⟩ := pr
      rw [hn] at hout
      injection hout with hout
      subst hout
      obtain ⟨tl, htl⟩ := skipCardLoop_hls rows
        (NoCommentIter.initConds first skipline.text) skipline.number nl rest'
        (hls ++ [(skipline.number, first.highlights skipline.text)])
      exact ⟨tl, by simpa using htl⟩
  · intro lay c hfirst
    subst hfirst
    rfl

/-- Witness for claim C9 on a card whose first row is a `Provides`. -/
theorem claim_C9_witness :
    (NoCommentIter.skip_card (blkL 0) PCARD [] [] =
      some ({ skip_end := 0, nextline := none },
        [(0, some (0, (blkL 0).text))], [])) ∧
    (NoCommentIter.initConds (CardLine.Provides 0 (Conditional.RelChar 0 'N'))
        (blkL 0).text).get? 0 =
      some (CondResult.Bool true) := by
  have h := claim_C9 (blkL 0) PCARD [] [] (CardLine.Provides 0 (Conditional.RelChar 0 'N'))
    [CardLine.Optional 1 0] rfl
  refine ⟨by simpa using h.1, ?_⟩
  have h3 := h.2.2 0 (Conditional.RelChar 0 'N') rfl
  simpa using h3

theorem advance_inv {base p : Int} {nl : ParsedLine} {rest : List ParsedLine}
    (hi : Inv base p nl rest) :
    (rest = [] ∧ NoCommentIter.advance nl rest =
      NoCommentIter.Step.done { skip_end := nl.number, nextline := none }) ∨
    (∃ x xs, rest = x :: xs ∧
      NoCommentIter.advance nl rest = NoCommentIter.Step.cont nl.number x xs ∧
      Inv base nl.number x xs) := by
  obtain ⟨hb, hn1, hnum, hnc⟩ := hi
  cases rest with
  | nil => exact Or.inl ⟨rfl, rfl⟩
  | cons x xs =>
    obtain ⟨hx1, hx2⟩ := hnum
    refine Or.inr ⟨x, xs, rfl, ?_, ?_, ?_, ?_, noCom_tail hnc⟩
    · rw [NoCommentIter.advance, next_of_noCom hnc]
    · omega
    · omega
    · rw [show nl.number + 2 = p + 2 + 1 from by omega]
      exact hx2

theorem gesLoop_inv (g : GesType) (p : Int) (nl : ParsedLine)
    (rest : List ParsedLine) :
    nl.number = p + 1 → numberedFrom (nl.number + 1) rest → noCom rest →
    p ≤ (NoCommentIter.gesLoop g p nl rest).1.skip_end ∧
    (∀ nl2, (NoCommentIter.gesLoop g p nl rest).1.nextline = some nl2 →
      nl2.number = (NoCommentIter.gesLoop g p nl rest).1.skip_end + 1 ∧
      numberedFrom (nl2.number + 1) (NoCommentIter.gesLoop g p nl rest).2 ∧
      noCom (NoCommentIter.gesLoop g p nl rest).2) := by
  induction p, nl, rest using NoCommentIter.gesLoop.induct g with
  | case1 p nl rest hc hn =>
    intro h1 hnum hnc
    have hv : NoCommentIter.gesLoop g p nl rest =
        ({ skip_end := nl.number, nextline := none }, []) := by
      rw [NoCommentIter.gesLoop, if_pos hc, hn]
    rw [hv]
    exact ⟨by simp; omega, fun nl2 h2 => (by simp at h2)⟩
  | case2 p nl rest hc nl' rest' hn ih =>
    intro h1 hnum hnc
    have hre := next_noCom_eq hnc hn
    subst hre
    obtain ⟨hx1, hx2⟩ := hnum
    have hih := ih hx1
      (by rw [show nl'.number + 1 = nl.number + 1 + 1 from by omega]; exact hx2)
      (noCom_tail hnc)
    have hv : NoCommentIter.gesLoop g p nl (nl' :: rest') =
        NoCommentIter.gesLoop g nl.number nl' rest' := by
      rw [NoCommentIter.gesLoop, if_pos hc, hn]
    rw [hv]
    exact ⟨by have := hih.1; omega, hih.2⟩
  | case3 p nl rest hc he hn =>
    intro h1 hnum hnc
    have hv : NoCommentIter.gesLoop g p nl rest =
        ({ skip_end := nl.number, nextline := none }, []) := by
      rw [NoCommentIter.gesLoop, if_neg hc, if_pos he, hn]
    rw [hv]
    exact ⟨by simp; omega, fun nl2 h2 => (by simp at h2)⟩
  | case4 p nl rest hc he nl' rest' hn =>
    intro h1 hnum hnc
    have hre := next_noCom_eq hnc hn
    subst hre
    obtain ⟨hx1, hx2⟩ := hnum
    have hv : NoCommentIter.gesLoop g p nl (nl' :: rest') =
        ({ skip_end := nl.number, nextline := some nl' }, rest') := by
      rw [NoCommentIter.gesLoop, if_neg hc, if_pos he, hn]
    rw [hv]
    refine ⟨by simp; omega, fun nl2 h2 => ?_⟩
    simp only at h2
    injection h2 with h2
    subst h2
    refine ⟨by simp; omega, ?_, noCom_tail hnc⟩
    show numberedFrom (nl'.number + 1) rest'
    rw [show nl'.number + 1 = nl.number + 1 + 1 from by omega]
    exact hx2
  | case5 p nl rest hc he =>
    intro h1 hnum hnc
    have hv : NoCommentIter.gesLoop g p nl rest =
        ({ skip_end := p, nextline := some nl }, rest) := by
      rw [NoCommentIter.gesLoop, if_neg hc, if_neg he]
    rw [hv]
    refine ⟨by simp, fun nl2 h2 => ?_⟩
    simp only at h2
    injection h2 with h2
    subst h2
    exact ⟨by simpa using h1, by simpa using hnum, by simpa using hnc⟩

theorem skip_ges_inv (g : GesType) {base p : Int} {nl : ParsedLine}
    {rest : List ParsedLine} (hi : Inv base p nl rest) :
    ((NoCommentIter.skip_ges g nl rest).1 = none →
      (NoCommentIter.skip_ges g nl rest).2 = rest) ∧
    (∀ sr, (NoCommentIter.skip_ges g nl rest).1 = some sr →
      base ≤ sr.skip_end ∧
      ∀ pl, sr.nextline = some pl →
        Inv base sr.skip_end pl (NoCommentIter.skip_ges g nl rest).2) := by
  obtain ⟨hb, hn1, hnum, hnc⟩ := hi
  by_cases hE : (g.ended_by nl.text = true)
  · cases rest with
    | nil =>
      have hv : NoCommentIter.skip_ges g nl [] =
          (some { skip_end := nl.number, nextline := none }, []) := by
        simp [NoCommentIter.skip_ges, hE, NoCommentIter.next]
      rw [hv]
      refine ⟨fun h => (by cases h), fun sr hsr => ?_⟩
      injection hsr with hsr
      subst hsr
      exact ⟨by simp; omega, fun pl hpl => (by cases hpl)⟩
    | cons x xs =>
      obtain ⟨hx1, hx2⟩ := hnum
      have hv : NoCommentIter.skip_ges g nl (x :: xs) =
          (some { skip_end := nl.number, nextline := some x }, xs) := by
        simp [NoCommentIter.skip_ges, hE, next_of_noCom hnc]
      rw [hv]
      refine ⟨fun h => (by cases h), fun sr hsr => ?_⟩
      injection hsr with hsr
      subst hsr
      refine ⟨by simp; omega, fun pl hpl => ?_⟩
      cases hpl
      refine ⟨by simp; omega, by simp; omega, ?_, noCom_tail hnc⟩
      show numberedFrom (nl.number + 2) xs
      rw [show nl.number + 2 = p + 2 + 1 from by omega]
      exact hx2
  · by_cases hC : (g.contains nl.text = true)
    · cases rest with
      | nil =>
        have hv : NoCommentIter.skip_ges g nl [] =
            (some { skip_end := nl.number, nextline := none }, []) := by
          simp [NoCommentIter.skip_ges, hE, hC, NoCommentIter.next]
        rw [hv]
        refine ⟨fun h => (by cases h), fun sr hsr => ?_⟩
        injection hsr with hsr
        subst hsr
        exact ⟨by simp; omega, fun pl hpl => (by cases hpl)⟩
      | cons x xs =>
        obtain ⟨hx1, hx2⟩ := hnum
        have hv : NoCommentIter.skip_ges g nl (x :: xs) =
            (some (NoCommentIter.gesLoop g nl.number x xs).1,
              (NoCommentIter.gesLoop g nl.number x xs).2) := by
          simp [NoCommentIter.skip_ges, hE, hC, next_of_noCom hnc]
        have hg := gesLoop_inv g nl.number x xs (by omega)
          (by rw [show x.number + 1 = nl.number + 1 + 1 from by omega]
              rw [show nl.number + 1 + 1 = p + 2 + 1 from by omega]
              exact hx2)
          (noCom_tail hnc)
        rw [hv]
        refine ⟨fun h => (by cases h), fun sr hsr => ?_⟩
        injection hsr with hsr
        subst hsr
        refine ⟨by have := hg.1; omega, fun pl hpl => ?_⟩
        obtain ⟨hp1, hp2, hp3⟩ := hg.2 pl hpl
        refine ⟨by have := hg.1; omega, hp1, ?_, hp3⟩
        rw [show (NoCommentIter.gesLoop g nl.number x xs).1.skip_end + 2 =
          pl.number + 1 from by omega]
        exact hp2
    · have hv : NoCommentIter.skip_ges g nl rest = (none, rest) := by
        simp [NoCommentIter.skip_ges, hE, hC]
      rw [hv]
      exact ⟨fun _ => rfl, fun sr hsr => (by cases hsr)⟩

theorem repeatLoop_inv : ∀ (n : Nat) {base p : Int} {nl : ParsedLine}
    {rest : List ParsedLine}, Inv base p nl rest →
    (∀ r, NoCommentIter.repeatLoop n p nl rest = NoCommentIter.Step.done r →
      base ≤ r.skip_end ∧ r.nextline = none) ∧
    (∀ p' nl' rest',
      NoCommentIter.repeatLoop n p nl rest = NoCommentIter.Step.cont p' nl' rest' →
      Inv base p' nl' rest') := by
  intro n
  induction n with
  | zero =>
    intro base p nl rest hi
    constructor
    · intro r hr
      simp [NoCommentIter.repeatLoop] at hr
    · intro p' nl' rest' hr
      rw [NoCommentIter.repeatLoop] at hr
      injection hr with h1 h2 h3
      subst h1; subst h2; subst h3
      exact hi
  | succ k ih =>
    intro base p nl rest hi
    obtain ⟨hb, hn1, hnum, hnc⟩ := hi
    cases rest with
    | nil =>
      constructor
      · intro r hr
        rw [NoCommentIter.repeatLoop] at hr
        rw [show NoCommentIter.next ([] : List ParsedLine) = none from rfl] at hr
        injection hr with hr
        subst hr
        exact ⟨by simp; omega, by simp⟩
      · intro p' nl' rest' hr
        rw [NoCommentIter.repeatLoop] at hr
        rw [show NoCommentIter.next ([] : List ParsedLine) = none from rfl] at hr
        cases hr
    | cons x xs =>
      obtain ⟨hx1, hx2⟩ := hnum
      have hnx := next_of_noCom hnc
      have hinv : Inv base nl.number x xs := by
        refine ⟨by omega, by omega, ?_, noCom_tail hnc⟩
        rw [show nl.number + 2 = p + 2 + 1 from by omega]
        exact hx2
      by_cases hk : (x.keyword.isSome = true)
      · constructor
        · intro r hr
          rw [NoCommentIter.repeatLoop, hnx] at hr
          simp only [hk, if_true] at hr
          cases hr
        · intro p' nl' rest' hr
          rw [NoCommentIter.repeatLoop, hnx] at hr
          simp only [hk, if_true] at hr
          injection hr with h1 h2 h3
          subst h1; subst h2; subst h3
          exact hinv
      · have hrec := ih hinv
        constructor
        · intro r hr
          rw [NoCommentIter.repeatLoop, hnx] at hr
          simp only [hk, Bool.false_eq_true, if_false] at hr
          exact hrec.1 r hr
        · intro p' nl' rest' hr
          rw [NoCommentIter.repeatLoop, hnx] at hr
          simp only [hk, Bool.false_eq_true, if_false] at hr
          exact hrec.2 p' nl' rest' hr

theorem optBlockLoop_inv (s2 : Text) {base : Int} (p : Int) (nl : ParsedLine)
    (rest : List ParsedLine) : Inv base p nl rest →
    (∀ r, NoCommentIter.optBlockLoop s2 p nl rest = NoCommentIter.Step.done r →
      base ≤ r.skip_end ∧ r.nextline = none) ∧
    (∀ p' nl' rest',
      NoCommentIter.optBlockLoop s2 p nl rest = NoCommentIter.Step.cont p' nl' rest' →
      Inv base p' nl' rest') := by
  induction p, nl, rest using NoCommentIter.optBlockLoop.induct s2 with
  | case1 p nl rest hs =>
    intro hi
    have hv : NoCommentIter.optBlockLoop s2 p nl rest =
        NoCommentIter.Step.cont p nl rest := by
      rw [NoCommentIter.optBlockLoop, if_pos hs]
    rw [hv]
    constructor
    · intro r hr; cases hr
    · intro p' nl' rest' hr
      injection hr with h1 h2 h3
      subst h1; subst h2; subst h3
      exact hi
  | case2 p nl rest hs hn =>
    intro hi
    obtain ⟨hb, hn1, hnum, hnc⟩ := hi
    have hre := next_none_of_noCom hnc hn
    subst hre
    have hv : NoCommentIter.optBlockLoop s2 p nl [] =
        NoCommentIter.Step.done { skip_end := nl.number, nextline := none } := by
      rw [NoCommentIter.optBlockLoop, if_neg hs, hn]
    rw [hv]
    constructor
    · intro r hr
      injection hr with hr
      subst hr
      exact ⟨by simp; omega, by simp⟩
    · intro p' nl' rest' hr; cases hr
  | case3 p nl rest hs nl' rest' hn hk =>
    intro hi
    obtain ⟨hb, hn1, hnum, hnc⟩ := hi
    have hre := next_noCom_eq hnc hn
    subst hre
    obtain ⟨hx1, hx2⟩ := hnum
    have hv : NoCommentIter.optBlockLoop s2 p nl (nl' :: rest') =
        NoCommentIter.Step.cont nl.number nl' rest' := by
      rw [NoCommentIter.optBlockLoop, if_neg hs, hn]
      simp [hk]
    rw [hv]
    constructor
    · intro r hr; cases hr
    · intro p2 nl2 rest2 hr
      injection hr with h1 h2 h3
      subst h1; subst h2; subst h3
      refine ⟨by omega, by omega, ?_, noCom_tail hnc⟩
      rw [show nl.number + 2 = p + 2 + 1 from by omega]
      exact hx2
  | case4 p nl rest hs nl' rest' hn hk ih =>
    intro hi
    obtain ⟨hb, hn1, hnum, hnc⟩ := hi
    have hre := next_noCom_eq hnc hn
    subst hre
    obtain ⟨hx1, hx2⟩ := hnum
    have hinv : Inv base nl.number nl' rest' := by
      refine ⟨by omega, by omega, ?_, noCom_tail hnc⟩
      rw [show nl.number + 2 = p + 2 + 1 from by omega]
      exact hx2
    have hrec := ih hinv
    have hv : NoCommentIter.optBlockLoop s2 p nl (nl' :: rest') =
        NoCommentIter.optBlockLoop s2 nl.number nl' rest' := by
      rw [NoCommentIter.optBlockLoop, if_neg hs, hn]
      simp [hk]
    rw [hv]
    exact hrec

theorem terminal_case {base p : Int} {nl : ParsedLine} (hb : base ≤ p)
    (hn1 : nl.number = p + 1) :
    base ≤ ({ skip_end := p, nextline := some nl } : SkipResult).skip_end ∧
    (∀ pl, ({ skip_end := p, nextline := some nl } : SkipResult).nextline = some pl →
      pl.number = ({ skip_end := p, nextline := some nl } : SkipResult).skip_end + 1) := by
  refine ⟨hb, fun pl hpl => ?_⟩
  injection hpl with hpl
  subst hpl
  simpa using hn1

theorem skipCardLoop_inv : ∀ (rows : List CardLine) (conds : List CondResult)
    {base p : Int} {nl : ParsedLine} {rest : List ParsedLine} (hls : Highlights),
    Inv base p nl rest →
    base ≤ (NoCommentIter.skipCardLoop conds rows p nl rest hls).1.skip_end ∧
    (∀ pl,
      (NoCommentIter.skipCardLoop conds rows p nl rest hls).1.nextline = some pl →
      pl.number = (NoCommentIter.skipCardLoop conds rows p nl rest hls).1.skip_end + 1) := by
  intro rows
  induction rows with
  | nil =>
    intro conds base p nl rest hls hi
    have hv : NoCommentIter.skipCardLoop conds [] p nl rest hls =
        ({ skip_end := p, nextline := some nl }, hls, rest) := by
      simp [NoCommentIter.skipCardLoop]
    rw [hv]
    exact terminal_case hi.1 hi.2.1
  | cons row rows' ih =>
    intro conds base p nl rest hls hi
    have hb := hi.1
    have hn1 := hi.2.1
    by_cases hk : (nl.keyword.isSome = true)
    · have hv : NoCommentIter.skipCardLoop conds (row :: rows') p nl rest hls =
          ({ skip_end := p, nextline := some nl }, hls, rest) := by
        simp [NoCommentIter.skipCardLoop, hk]
      rw [hv]
      exact terminal_case hb hn1
    · cases row with
      | Provides lay c =>
        rcases advance_inv hi with ⟨hre, ha⟩ | ⟨x, xs, hre, ha, hinv⟩
        · have hv : NoCommentIter.skipCardLoop conds
              (CardLine.Provides lay c :: rows') p nl rest hls =
              ({ skip_end := nl.number, nextline := none }, hls, []) := by
            simp [NoCommentIter.skipCardLoop, hk, ha]
          rw [hv]
          exact ⟨by simp; omega, fun pl hpl => (by simp at hpl)⟩
        · have hv : NoCommentIter.skipCardLoop conds
              (CardLine.Provides lay c :: rows') p nl rest hls =
              NoCommentIter.skipCardLoop (conds ++ [c.evaluateC nl.text]) rows'
                nl.number x xs hls := by
            simp [NoCommentIter.skipCardLoop, hk, ha]
          rw [hv]
          exact ih _ hls hinv
      | Cells lay =>
        rcases advance_inv hi with ⟨hre, ha⟩ | ⟨x, xs, hre, ha, hinv⟩
        · have hv : NoCommentIter.skipCardLoop conds
              (CardLine.Cells lay :: rows') p nl rest hls =
              ({ skip_end := nl.number, nextline := none },
                hls ++ [(nl.number, (CardLine.Cells lay).highlights nl.text)], []) := by
            simp [NoCommentIter.skipCardLoop, hk, ha]
          rw [hv]
          exact ⟨by simp; omega, fun pl hpl => (by simp at hpl)⟩
        · have hv : NoCommentIter.skipCardLoop conds
              (CardLine.Cells lay :: rows') p nl rest hls =
              NoCommentIter.skipCardLoop conds rows' nl.number x xs
                (hls ++ [(nl.number, (CardLine.Cells lay).highlights nl.text)]) := by
            simp [NoCommentIter.skipCardLoop, hk, ha]
          rw [hv]
          exact ih _ _ hinv
      | Optional lay i =>
        by_cases hc : (conds[i]? = some (CondResult.Bool true))
        · rcases advance_inv hi with ⟨hre, ha⟩ | ⟨x, xs, hre, ha, hinv⟩
          · have hv : NoCommentIter.skipCardLoop conds
                (CardLine.Optional lay i :: rows') p nl rest hls =
                ({ skip_end := nl.number, nextline := none }, hls, []) := by
              simp [NoCommentIter.skipCardLoop, hk, hc, ha]
            rw [hv]
            exact ⟨by simp; omega, fun pl hpl => (by simp at hpl)⟩
          · have hv : NoCommentIter.skipCardLoop conds
                (CardLine.Optional lay i :: rows') p nl rest hls =
                NoCommentIter.skipCardLoop conds rows' nl.number x xs hls := by
              simp [NoCommentIter.skipCardLoop, hk, hc, ha]
            rw [hv]
            exact ih _ hls hinv
        · have hv : NoCommentIter.skipCardLoop conds
              (CardLine.Optional lay i :: rows') p nl rest hls =
              NoCommentIter.skipCardLoop conds rows' p nl rest hls := by
            simp [NoCommentIter.skipCardLoop, hk, hc]
          rw [hv]
          exact ih _ hls hi
      | Repeat lay i =>
        cases hg : conds[i]? with
        | none =>
          have hv : NoCommentIter.skipCardLoop conds
              (CardLine.Repeat lay i :: rows') p nl rest hls =
              NoCommentIter.skipCardLoop conds rows' p nl rest hls := by
            simp [NoCommentIter.skipCardLoop, hk, hg]
          rw [hv]
          exact ih _ hls hi
        | some cr =>
          cases cr with
          | Bool b =>
            have hv : NoCommentIter.skipCardLoop conds
                (CardLine.Repeat lay i :: rows') p nl rest hls =
                NoCommentIter.skipCardLoop conds rows' p nl rest hls := by
              simp [NoCommentIter.skipCardLoop, hk, hg]
            rw [hv]
            exact ih _ hls hi
          | Number n =>
            cases n with
            | none =>
              have hv : NoCommentIter.skipCardLoop conds
                  (CardLine.Repeat lay i :: rows') p nl rest hls =
                  NoCommentIter.skipCardLoop conds rows' p nl rest hls := by
                simp [NoCommentIter.skipCardLoop, hk, hg]
              rw [hv]
              exact ih _ hls hi
            | some u =>
              by_cases hu : (0 < u)
              · cases hr : NoCommentIter.repeatLoop u.toNat p nl rest with
                | done r =>
                  have hv : NoCommentIter.skipCardLoop conds
                      (CardLine.Repeat lay i :: rows') p nl rest hls =
                      (r, hls, []) := by
                    simp [NoCommentIter.skipCardLoop, hk, hg, hu, hr]
                  rw [hv]
                  obtain ⟨hr1, hr2⟩ := (repeatLoop_inv u.toNat hi).1 r hr
                  exact ⟨hr1, fun pl hpl => (by rw [hr2] at hpl; cases hpl)⟩
                | cont p' nl' rest' =>
                  have hv : NoCommentIter.skipCardLoop conds
                      (CardLine.Repeat lay i :: rows') p nl rest hls =
                      NoCommentIter.skipCardLoop conds rows' p' nl' rest' hls := by
                    simp [NoCommentIter.skipCardLoop, hk, hg, hu, hr]
                  rw [hv]
                  exact ih _ hls ((repeatLoop_inv u.toNat hi).2 p' nl' rest' hr)
              · have hv : NoCommentIter.skipCardLoop conds
                    (CardLine.Repeat lay i :: rows') p nl rest hls =
                    NoCommentIter.skipCardLoop conds rows' p nl rest hls := by
                  simp [NoCommentIter.skipCardLoop, hk, hg, hu]
                rw [hv]
                exact ih _ hls hi
      | Ges g =>
        cases hsg : NoCommentIter.skip_ges g nl rest with
        | mk osr rest2 =>
          have hfst : (NoCommentIter.skip_ges g nl rest).1 = osr := by rw [hsg]
          have hsnd : (NoCommentIter.skip_ges g nl rest).2 = rest2 := by rw [hsg]
          cases osr with
          | none =>
            have hr2 : rest2 = rest := by
              rw [← hsnd]
              exact (skip_ges_inv g hi).1 hfst
            have hv : NoCommentIter.skipCardLoop conds
                (CardLine.Ges g :: rows') p nl rest hls =
                NoCommentIter.skipCardLoop conds rows' p nl rest2 hls := by
              simp [NoCommentIter.skipCardLoop, hk, hsg]
            rw [hv, hr2]
            exact ih _ hls hi
          | some sr =>
            have hsr := (skip_ges_inv g hi).2 sr hfst
            cases hnl : sr.nextline with
            | none =>
              have hv : NoCommentIter.skipCardLoop conds
                  (CardLine.Ges g :: rows') p nl rest hls = (sr, hls, rest2) := by
                simp [NoCommentIter.skipCardLoop, hk, hsg, hnl]
              rw [hv]
              exact ⟨hsr.1, fun pl hpl => (by rw [show (sr, hls, rest2).1 = sr from rfl, hnl] at hpl; cases hpl)⟩
            | some pl =>
              have hinv : Inv base sr.skip_end pl rest2 := by
                rw [← hsnd]
                exact hsr.2 pl hnl
              have hv : NoCommentIter.skipCardLoop conds
                  (CardLine.Ges g :: rows') p nl rest hls =
                  NoCommentIter.skipCardLoop conds rows' sr.skip_end pl rest2 hls := by
                simp [NoCommentIter.skipCardLoop, hk, hsg, hnl]
              rw [hv]
              exact ih _ hls hinv
      | Block lay s2 =>
        have hnum : numberedFrom (nl.number + 1) rest := by
          rw [show nl.number + 1 = p + 2 from by omega]
          exact hi.2.2.1
        have hbl := blockLoop_run rest s2 nl hi.2.2.2 hnum
        have hv : NoCommentIter.skipCardLoop conds
            (CardLine.Block lay s2 :: rows') p nl rest hls =
            (NoCommentIter.blockLoop s2 nl rest, hls, []) := by
          simp [NoCommentIter.skipCardLoop, hk]
        rw [hv, hbl]
        constructor
        · simp
          omega
        · intro pl hpl
          simp at hpl
      | OptionalBlock s1a s2a =>
        by_cases hs : (s1a.isPrefixOf nl.text = true)
        · cases ho : NoCommentIter.optBlockLoop s2a p nl rest with
          | done r =>
            have hv : NoCommentIter.skipCardLoop conds
                (CardLine.OptionalBlock s1a s2a :: rows') p nl rest hls =
                (r, hls, []) := by
              simp [NoCommentIter.skipCardLoop, hk, hs, ho]
            rw [hv]
            obtain ⟨hr1, hr2⟩ := (optBlockLoop_inv s2a p nl rest hi).1 r ho
            exact ⟨hr1, fun pl hpl => (by rw [show (r, hls, ([] : List ParsedLine)).1 = r from rfl, hr2] at hpl; cases hpl)⟩
          | cont p' nl' rest' =>
            have hv : NoCommentIter.skipCardLoop conds
                (CardLine.OptionalBlock s1a s2a :: rows') p nl rest hls =
                NoCommentIter.skipCardLoop conds rows' p' nl' rest' hls := by
              simp [NoCommentIter.skipCardLoop, hk, hs, ho]
            rw [hv]
            exact ih _ hls ((optBlockLoop_inv s2a p nl rest hi).2 p' nl' rest' ho)
        · have hv : NoCommentIter.skipCardLoop conds
              (CardLine.OptionalBlock s1a s2a :: rows') p nl rest hls =
              NoCommentIter.skipCardLoop conds rows' p nl rest hls := by
            simp [NoCommentIter.skipCardLoop, hk, hs]
          rw [hv]
          exact ih _ hls hi

/-- Amended claim C1: for every card, on input whose remaining lines are
consecutively numbered after the keyword line and contain no comment lines,
`skip_card` returns `skip_end ≥ skipline.index`, and whenever `nextline` is
present, `nextline.index = skip_end + 1`. (With comment lines interleaved,
`nextline` is the next non-comment line and its index can exceed
`skip_end + 1`; see the counterexample.) -/
theorem claim_C1_amended (skipline : ParsedLine) (card : Card) (hls : Highlights)
    (rest : List ParsedLine)
    (out : SkipResult × Highlights × List ParsedLine)
    (hnum : numberedFrom (skipline.number + 1) rest) (hnc : noCom rest)
    (hres : NoCommentIter.skip_card skipline card hls rest = some out) :
    skipline.number ≤ out.1.skip_end ∧
    (∀ pl, out.1.nextline = some pl → pl.number = out.1.skip_end + 1) := by
  cases hc : card.lines with
  | nil =>
    rw [NoCommentIter.skip_card, hc] at hres
    cases hres
  | cons first rows =>
    rw [NoCommentIter.skip_card, hc] at hres
    cases rest with
    | nil =>
      simp [NoCommentIter.next] at hres
      rw [← hres]
      exact ⟨by simp, fun pl hpl => (by simp at hpl)⟩
    | cons x xs =>
      simp only [next_of_noCom hnc, Option.some.injEq] at hres
      obtain ⟨hx1, hx2⟩ := hnum
      have hinv : Inv skipline.number skipline.number x xs := by
        refine ⟨le_refl _, by omega, ?_, noCom_tail hnc⟩
        rw [show skipline.number + 2 = skipline.number + 1 + 1 from by omega]
        exact hx2
      have h := skipCardLoop_inv rows (NoCommentIter.initConds first skipline.text)
        (hls ++ [(skipline.number, first.highlights skipline.text)]) hinv
      rw [← hres]
      exact h

/-- Witness for the amended claim C1 on a `NODE` card followed by one
consecutively numbered, comment-free line. -/
theorem claim_C1_witness :
    (cmtL 0).number ≤ ({ skip_end := 0, nextline := some (blkL 1) } : SkipResult).skip_end ∧
    (∀ pl, ({ skip_end := 0, nextline := some (blkL 1) } : SkipResult).nextline = some pl →
      pl.number = ({ skip_end := 0, nextline := some (blkL 1) } : SkipResult).skip_end + 1) :=
  claim_C1_amended (cmtL 0) NODE [] [blkL 1]
    ({ skip_end := 0, nextline := some (blkL 1) }, [(0, some (0, (cmtL 0).text))], [])
    (by decide) (by decide) (by decide)

end Nvimpam
